import Mathlib

/-!
Shallow embedding of the compliance analysis engine
(`app/compliance_engine.py`, class `ComplianceEngine`) and proofs of the
specification claims about it.

Conventions used throughout:
* Python `str` values that are scanned character by character are modelled
  as `List Char`; opaque strings (ids, names, explanations) stay `String`.
* Python floats appear only as confidence scores combined with `max` and
  compared against constants, so they are modelled exactly as rationals.
* Fallible or possibly non-terminating loops are modelled with explicit
  fuel returning `Option` (`none` = the loop has not finished within the
  given fuel), and raised exceptions with `Except String`.
* `json.loads` is an external stdlib collaborator; it is modelled by a
  genuine recursive-descent parser `json_loads` over the JSON subset the
  engine exchanges (null/true/false, decimal numbers, escape-free strings,
  arrays, objects, whitespace), returning `Option.none` for a decode error.
-/

/-- Model of a Python value as produced by `json.loads` and as returned by
`llm_compliance_check` (dicts built literally in the source). -/
inductive PyValue where
  | null
  | bool (b : Bool)
  | num (q : ℚ)
  | str (s : String)
  | list (items : List PyValue)
  | dict (entries : List (String × PyValue))

/-- Whitespace skipping for the JSON reader. -/
def skipWs : List Char → List Char
  | c :: rest => if c = ' ' ∨ c = '\n' ∨ c = '\t' ∨ c = '\r' then skipWs rest else c :: rest
  | [] => []

/-- Reads the body of a JSON string (escape-free subset) up to the closing
quote, returning the characters read and the remaining input. -/
def parseJsonStringBody : List Char → Option (List Char × List Char)
  | [] => Option.none
  | '"' :: rest => some ([], rest)
  | c :: rest => (parseJsonStringBody rest).map (fun p => (c :: p.1, p.2))

/-- Reads a maximal run of decimal digits, returning the accumulated value,
the number of digits read, and the remaining input. -/
def parseDigits : List Char → Nat → Nat → (Nat × Nat × List Char)
  | c :: rest, acc, cnt =>
    if '0' ≤ c ∧ c ≤ '9' then
      parseDigits rest (10 * acc + (c.toNat - '0'.toNat)) (cnt + 1)
    else (acc, cnt, c :: rest)
  | [], acc, cnt => (acc, cnt, [])

/-- Reads a JSON number (optional minus sign, integer part, optional
fractional part; exponents are outside the modelled subset). -/
def jsonNumber (s : List Char) : Option (PyValue × List Char) :=
  let p := match s with
    | '-' :: rest => (true, rest)
    | _ => (false, s)
  match parseDigits p.2 0 0 with
  | (_, 0, _) => Option.none
  | (intPart, _ + 1, r) =>
    match r with
    | '.' :: r2 =>
      match parseDigits r2 0 0 with
      | (_, 0, _) => Option.none
      | (fracPart, k + 1, r3) =>
        let q : ℚ := (intPart : ℚ) + (fracPart : ℚ) / ((10 : ℚ) ^ (k + 1))
        some (PyValue.num (if p.1 then -q else q), r3)
    | _ => some (PyValue.num (if p.1 then -(intPart : ℚ) else (intPart : ℚ)), r)

mutual

/-- Reads one JSON value. Fuel decreases at every recursive call; the
top-level entry point supplies fuel ample for the whole input. -/
def jsonValue (fuel : Nat) (s : List Char) : Option (PyValue × List Char) :=
  match fuel with
  | 0 => Option.none
  | f + 1 =>
    match skipWs s with
    | '"' :: rest => (parseJsonStringBody rest).map (fun p => (PyValue.str (String.mk p.1), p.2))
    | 't' :: 'r' :: 'u' :: 'e' :: rest => some (PyValue.bool true, rest)
    | 'f' :: 'a' :: 'l' :: 's' :: 'e' :: rest => some (PyValue.bool false, rest)
    | 'n' :: 'u' :: 'l' :: 'l' :: rest => some (PyValue.null, rest)
    | '[' :: rest =>
      match skipWs rest with
      | ']' :: r2 => some (PyValue.list [], r2)
      | r2 => (jsonItems f r2).map (fun p => (PyValue.list p.1, p.2))
    | '\x7b' :: rest =>
      match skipWs rest with
      | '\x7d' :: r2 => some (PyValue.dict [], r2)
      | r2 => (jsonMembers f r2).map (fun p => (PyValue.dict p.1, p.2))
    | s2 => jsonNumber s2

/-- Reads the comma-separated items of a non-empty JSON array, including the
closing bracket. -/
def jsonItems (fuel : Nat) (s : List Char) : Option (List PyValue × List Char) :=
  match fuel with
  | 0 => Option.none
  | f + 1 =>
    match jsonValue f s with
    | some (v, r) =>
      match skipWs r with
      | ',' :: r2 => (jsonItems f r2).map (fun p => (v :: p.1, p.2))
      | ']' :: r2 => some ([v], r2)
      | _ => Option.none
    | _ => Option.none

/-- Reads the comma-separated members of a non-empty JSON object, including
the closing brace. -/
def jsonMembers (fuel : Nat) (s : List Char) : Option (List (String × PyValue) × List Char) :=
  match fuel with
  | 0 => Option.none
  | f + 1 =>
    match skipWs s with
    | '"' :: rest =>
      match parseJsonStringBody rest with
      | some (key, r2) =>
        match skipWs r2 with
        | ':' :: r3 =>
          match jsonValue f r3 with
          | some (v, r4) =>
            match skipWs r4 with
            | ',' :: r5 => (jsonMembers f r5).map (fun p => ((String.mk key, v) :: p.1, p.2))
            | '\x7d' :: r5 => some ([(String.mk key, v)], r5)
            | _ => Option.none
          | _ => Option.none
        | _ => Option.none
      | _ => Option.none
    | _ => Option.none

end

/-- Model of Python `json.loads`: parses the whole input as one JSON value
(`Option.none` models `json.JSONDecodeError`). -/
def json_loads (s : String) : Option PyValue :=
  match jsonValue (2 * s.length + 2) s.toList with
  | some (v, rest) => if skipWs rest = [] then some v else Option.none
  | _ => Option.none

/-- A compliance rule as consumed by the engine. Mandatory fields mirror the
keys the source reads with `rule[...]`; optional fields mirror the keys read
with `rule.get(...)`, whose absence is meaningful. -/
structure Rule where
  id : String
  name : String
  description : String
  severity : Option String
  patterns : Option (List (List Char))
  llm_prompt : Option String
deriving DecidableEq

/-- One framework's rule set as consumed by `analyze_document`; the source
reads only `rule_set.get("rules", [])`. -/
structure RuleSet where
  rules : Option (List Rule)
deriving DecidableEq

/-- Model of Python `str.find` restricted to its success index: index of the
first occurrence of `needle` in the haystack, counting from `i`. -/
def firstOccurAux (needle : List Char) : List Char → Nat → Option Nat
  | [], i => if needle = [] then some i else Option.none
  | c :: rest, i =>
    if needle.isPrefixOf (c :: rest) then some i
    else firstOccurAux needle rest (i + 1)

/-- Index of the first occurrence of `needle` in `hay` (`str.find`, with
`Option.none` for -1). `pattern.lower() in content.lower()` holds exactly
when this is `some`. -/
def firstOccur (needle hay : List Char) : Option Nat :=
  firstOccurAux needle hay 0

/-- The evidence entry `check_pattern_compliance` records for one pattern:
`Option.none` when the lowered pattern does not occur in the lowered content,
otherwise the formatted snippet around the first occurrence. Nat subtraction
in `start - 100` models Python's `max(0, start - 100)`. -/
def pattern_evidence_of (content : List Char) (pattern : List Char) : Option String :=
  match firstOccur (pattern.map Char.toLower) (content.map Char.toLower) with
  | Option.none => Option.none
  | some start =>
    let context_start := start - 100
    let context_end := min content.length (start + pattern.length + 100)
    let context := (content.drop context_start).take (context_end - context_start)
    some ("Found \x27" ++ String.mk pattern ++ "\x27 in context: ..." ++ String.mk context ++ "...")

/-- Model of `ComplianceEngine.check_pattern_compliance`: scans `rule.patterns` in
order, recording one evidence string per matching pattern; the hit flag is
`len(violations) > 0`. -/
def check_pattern_compliance (content : List Char) (rule : Rule) : Bool × List String :=
  let violations := (rule.patterns.getD []).filterMap (pattern_evidence_of content)
  (!violations.isEmpty, violations)

/-- The `while start < len(text)` loop of `ComplianceEngine.chunk_text`, with
explicit fuel: `Option.none` means the loop has not finished within `fuel`
iterations. For `overlap ≤ start + chunk_size` the Nat subtraction in the new
start coincides with Python's `end - overlap`; every claim about this
function stays in that range. -/
def chunk_text_fuel (text : List Char) (chunk_size overlap : Nat) : Nat → Nat → Option (List (List Char))
  | 0, _ => Option.none
  | fuel + 1, start =>
    if start < text.length then
      let chunk := (text.drop start).take chunk_size
      if text.length ≤ start + chunk_size then some [chunk]
      else (chunk_text_fuel text chunk_size overlap fuel (start + chunk_size - overlap)).map (chunk :: ·)
    else some []

/-- Model of `ComplianceEngine.chunk_text`: the loop started at 0 with fuel
`text.length + 1`, which is ample whenever the loop terminates at all
(for `overlap < chunk_size` the start advances by at least 1 per iteration). -/
def chunk_text (text : List Char) (chunk_size : Nat := 1000) (overlap : Nat := 200) :
    Option (List (List Char)) :=
  chunk_text_fuel text chunk_size overlap (text.length + 1) 0

/-- Instrumented variant of `chunk_text_fuel` that also records the start
offset of each window; used to state and prove the windowing properties. -/
def chunk_text_pairs_fuel (text : List Char) (chunk_size overlap : Nat) :
    Nat → Nat → Option (List (Nat × List Char))
  | 0, _ => Option.none
  | fuel + 1, start =>
    if start < text.length then
      let chunk := (text.drop start).take chunk_size
      if text.length ≤ start + chunk_size then some [(start, chunk)]
      else (chunk_text_pairs_fuel text chunk_size overlap fuel (start + chunk_size - overlap)).map
        ((start, chunk) :: ·)
    else some []

/-- The prompt literal built by `llm_compliance_check` (the f-string, with
the document content truncated to its first 3000 characters). -/
def build_prompt (content : List Char) (rule : Rule) : String :=
  "\n        Compliance Analysis Request:\n        \n        Rule: " ++ rule.name ++
  "\n        Description: " ++ rule.description ++
  "\n        Analysis Prompt: " ++
  (rule.llm_prompt.getD "Analyze this document for compliance violations.") ++
  "\n        \n        Document Content:\n        " ++ String.mk (content.take 3000) ++
  "  # Limit content to avoid token limits\n        \n        " ++
  "Please analyze the document and respond with:\n        " ++
  "1. Is there a compliance violation? (Yes/No)\n        " ++
  "2. Confidence score (0.0 to 1.0)\n        " ++
  "3. Evidence from the document (specific quotes)\n        " ++
  "4. Explanation of the violation or compliance\n        \n        " ++
  "Format your response as JSON:\n        \x7b\n            " ++
  "\"violation\": true/false,\n            \"confidence\": 0.0-1.0,\n            " ++
  "\"evidence\": [\"quote1\", \"quote2\"],\n            " ++
  "\"explanation\": \"detailed explanation\"\n        \x7d\n        "

/-- The `if self.openai_client / elif self.anthropic_client / else` chain of
`llm_compliance_check`: the outcome of the one backend call made, or
`Option.none` when no backend is configured. -/
def llm_backend_call (openai_client anthropic_client : Option (String → Except String String))
    (prompt : String) : Option (Except String String) :=
  match openai_client with
  | some client => some (client prompt)
  | Option.none =>
    match anthropic_client with
    | some client => some (client prompt)
    | Option.none => Option.none

/-- Model of `ComplianceEngine.llm_compliance_check`. The two optional clients model
`self.openai_client` / `self.anthropic_client`; a client is a function from
the prompt to either the returned message text or a raised exception
(`Except.error` carries `str(e)`). The `try`/`except Exception` of the
source is the match on the call outcome; the inner `try`/`except
json.JSONDecodeError` is the match on `json_loads`. -/
def llm_compliance_check (openai_client anthropic_client : Option (String → Except String String))
    (content : List Char) (rule : Rule) : PyValue :=
  let prompt := build_prompt content rule
  match llm_backend_call openai_client anthropic_client prompt with
  | Option.none =>
    PyValue.dict [("violation", PyValue.bool false), ("confidence", PyValue.num 0),
      ("evidence", PyValue.list []), ("explanation", PyValue.str "No LLM API configured")]
  | some (Except.error e) =>
    PyValue.dict [("violation", PyValue.bool false), ("confidence", PyValue.num 0),
      ("evidence", PyValue.list []),
      ("explanation", PyValue.str ("LLM analysis failed: " ++ e))]
  | some (Except.ok result) =>
    match json_loads result with
    | some parsed => parsed
    | Option.none =>
      PyValue.dict [("violation", PyValue.bool true), ("confidence", PyValue.num (1 / 2)),
        ("evidence", PyValue.list []), ("explanation", PyValue.str result)]

/-- The parsed LLM result as consumed by `analyze_document`. Each field is
optional to model the `llm_result.get(key, default)` reads of the source;
values are the well-typed ones of the LLMVerdict data model. -/
structure LLMResult where
  violation : Option Bool
  confidence : Option ℚ
  evidence : Option (List String)
  explanation : Option String
deriving DecidableEq

/-- One verdict record as built by `analyze_document` (the `created_at`
timestamp, a wall-clock read, is omitted). -/
structure ComplianceVerdict where
  document_id : String
  rule_type : String
  rule_id : String
  rule_name : String
  violation_type : String
  severity : String
  pattern_violation : Bool
  pattern_evidence : List String
  llm_violation : Bool
  llm_confidence : ℚ
  llm_evidence : List String
  llm_explanation : String
  overall_violation : Bool
  confidence_score : ℚ
deriving DecidableEq

/-- Python `max(a, b)` on two numbers: keeps the first argument unless the
second is strictly greater. Written with a decidable comparison so that it
evaluates inside the kernel; `pymax_eq_max` identifies it with `max`. -/
def pymax (a b : ℚ) : ℚ := if a < b then b else a

/-- The one verdict record the `for rule in rule_set.get("rules", [])` loop
body of `analyze_document` builds and appends for a rule (the `created_at`
wall-clock read is omitted). -/
def build_verdict (doc_id : String) (content : List Char) (rule_type : String)
    (llm : List Char → Rule → LLMResult) (rule : Rule) : ComplianceVerdict :=
  let pc := check_pattern_compliance content rule
  let llm_result := llm content rule
  { document_id := doc_id
    rule_type := rule_type
    rule_id := rule.id
    rule_name := rule.name
    violation_type := rule.description
    severity := rule.severity.getD "MEDIUM"
    pattern_violation := pc.1
    pattern_evidence := pc.2
    llm_violation := llm_result.violation.getD false
    llm_confidence := llm_result.confidence.getD 0
    llm_evidence := llm_result.evidence.getD []
    llm_explanation := llm_result.explanation.getD ""
    overall_violation := pc.1 || llm_result.violation.getD false
    confidence_score :=
      pymax (if pc.1 then (8 : ℚ) / 10 else 0) (llm_result.confidence.getD 0) }

/-- Model of `ComplianceEngine.analyze_document`. Here `rules` models `self.rules` as an
association list (framework name to rule set); `rule_types = Option.none`
models the `None` default; `llm` is the LLM collaborator: what
`llm_compliance_check` returns for the given content and rule, already
parsed into its typed field view. The vector-store side effect has no
bearing on the returned records and is not modelled. -/
def analyze_document (doc_id : String) (content : List Char)
    (rules : List (String × RuleSet)) (rule_types : Option (List String))
    (llm : List Char → Rule → LLMResult) : List ComplianceVerdict :=
  (rule_types.getD (rules.map Prod.fst)).flatMap (fun rule_type =>
    match rules.lookup rule_type with
    | Option.none => []
    | some rule_set =>
      (rule_set.rules.getD []).map (build_verdict doc_id content rule_type llm))

/-- The summary block of a non-empty compliance report. -/
structure ReportSummary where
  total_violations : Nat
  total_checks : Nat
  violations_by_type : List (String × Nat)
  violations_by_severity : List (String × Nat)
  high_confidence_violations : Nat
  compliance_score : ℚ
deriving DecidableEq

/-- A compliance report; `summary = Option.none` models the empty summary
dict of the no-results branch, which also carries no `detailed_results`. -/
structure ComplianceReport where
  status : String
  summary : Option ReportSummary
  detailed_results : List ComplianceVerdict
deriving DecidableEq

/-- The `groupby(key).size().to_dict()` aggregation of the source: the count
of rows per key value (key order is immaterial, the Python result is a
dict). -/
def countBy (key : ComplianceVerdict → String) (vs : List ComplianceVerdict) :
    List (String × Nat) :=
  ((vs.map key).dedup).map (fun k => (k, (vs.filter (fun v => key v == k)).length))

/-- Model of `ComplianceEngine.generate_compliance_report`. -/
def generate_compliance_report (results : List ComplianceVerdict) : ComplianceReport :=
  if results.isEmpty then
    { status := "No violations found", summary := Option.none, detailed_results := [] }
  else
    let violations := results.filter (fun v => v.overall_violation)
    { status := "Analysis Complete"
      summary := some
        { total_violations := violations.length
          total_checks := results.length
          violations_by_type := countBy (fun v => v.rule_type) violations
          violations_by_severity := countBy (fun v => v.severity) violations
          high_confidence_violations :=
            (results.filter (fun v => v.overall_violation && decide ((7 : ℚ) / 10 < v.confidence_score))).length
          compliance_score :=
            ((results.length : ℚ) - (violations.length : ℚ)) / (results.length : ℚ) * 100 }
      detailed_results := results }

/-- Python `str.endswith` on the character-list view of the strings. -/
def str_endswith (s suffix : String) : Bool :=
  suffix.toList.isSuffixOf s.toList

/-- The framework name `load_all_rules` derives from a rule file name:
`filename.replace("_rules.json", "").upper()` for names ending in
`_rules.json` (for such names a single occurrence is removed exactly by
dropping the suffix; `str.upper` is modelled per character). -/
def rule_type_of (filename : String) : String :=
  String.mk ((filename.toList.take
    (filename.toList.length - "_rules.json".toList.length)).map Char.toUpper)

/-- Model of `ComplianceEngine.load_all_rules`. The directory listing is modelled as
an association list of file name to file contents; `json.load` on a file is
`json_loads` on its contents, and a decode failure is the raised exception
(`Except.error`), which the source does not catch, aborting the whole load.
Later files shadow earlier ones of the same framework under `lookup`,
mirroring dict assignment order only approximately (no claim touches
duplicate framework names). -/
def load_all_rules : List (String × String) → Except String (List (String × PyValue))
  | [] => Except.ok []
  | (filename, contents) :: rest =>
    if str_endswith filename "_rules.json" then
      match json_loads contents with
      | some v => (load_all_rules rest).map (fun m => (rule_type_of filename, v) :: m)
      | Option.none => Except.error ("json.JSONDecodeError: " ++ filename)
    else load_all_rules rest

/-- Following the spec's words (§3, LLMVerdict): a well-formed verdict is a
dict with a boolean `violation`, a numeric `confidence` within `[0, 1]`, a
list of strings as `evidence`, and a string `explanation`. Used to compare
the adjudicator's actual outputs against the spec's well-formedness claim. -/
def isWellFormedLLMVerdict (v : PyValue) : Bool :=
  match v with
  | PyValue.dict es =>
    match es.lookup "violation", es.lookup "confidence",
        es.lookup "evidence", es.lookup "explanation" with
    | some (PyValue.bool _), some (PyValue.num c), some (PyValue.list ev), some (PyValue.str _) =>
      decide (0 ≤ c) && decide (c ≤ 1) &&
        ev.all (fun e => match e with | PyValue.str _ => true | _ => false)
    | _, _, _, _ => false
  | _ => false

/-- The relation between consecutive `(start, window)` pairs of the
segmenter for parameters `chunk_size`, `overlap`: the next start advances by
`chunk_size - overlap`, the earlier window is full-sized, and the two
windows share exactly the `overlap` characters between them. -/
def chunkStep (chunk_size overlap : Nat) (a b : Nat × List Char) : Prop :=
  b.1 = a.1 + (chunk_size - overlap) ∧ a.2.length = chunk_size ∧
    b.2.take overlap = a.2.drop (chunk_size - overlap)

/-! Concrete fixtures shared by witnesses and counterexamples. -/

/-- A concrete rule with a single trigger phrase "ssn". -/
def rule0 : Rule :=
  { id := "R1", name := "Rule1", description := "desc", severity := Option.none,
    patterns := some [['s', 's', 'n']], llm_prompt := Option.none }

/-- A concrete document content containing the phrase "ssn". -/
def content0 : List Char := ['h', 'a', 's', ' ', 's', 's', 'n']

/-- The typed field view of the "No LLM API configured" verdict dict. -/
def no_api_llm_result : LLMResult :=
  { violation := some false, confidence := some 0, evidence := some [],
    explanation := some "No LLM API configured" }

/-- The verdict record that `analyze_document` produces for `content0`
against `rule0` with the no-backend LLM collaborator (a pattern hit:
`content0` contains "ssn"). -/
def witness_verdict : ComplianceVerdict :=
  build_verdict "d" content0 "GDPR" (fun _ _ => no_api_llm_result) rule0

/-- The verdict record that `analyze_document` produces for the one-character
content "x" (no pattern hit) against `rule0` with the no-backend LLM
collaborator. -/
def witness_verdict_no_hit : ComplianceVerdict :=
  build_verdict "d" ['x'] "GDPR" (fun _ _ => no_api_llm_result) rule0

/-! Helper lemmas. -/

/-- The function `pymax` is the lattice `max` on the rationals. -/
theorem pymax_eq_max (a b : ℚ) : pymax a b = max a b := by
  rw [pymax]
  split
  · exact (max_eq_right (le_of_lt (by assumption))).symm
  · exact (max_eq_left (le_of_not_lt (by assumption))).symm

/-! Claim theorems. -/

/-- C10: on the empty input text `chunk_text` returns the empty window list
for every choice of chunk size and overlap. -/
theorem chunk_text_empty_input (chunk_size overlap : Nat) :
    chunk_text [] chunk_size overlap = some [] := rfl

/-- C7 (evidence of the code bug): `chunk_text` performs no parameter
validation and raises no ConfigError; with overlap = chunk_size it makes no
progress, so on the text "ab" with chunk_size = 1, overlap = 1 the loop
never finishes, whatever fuel it is given. -/
theorem chunk_text_overlap_eq_size_never_terminates :
    chunk_text ['a', 'b'] 1 1 = Option.none ∧
    ∀ fuel : Nat, chunk_text_fuel ['a', 'b'] 1 1 fuel 0 = Option.none := by
  have h : ∀ fuel : Nat, chunk_text_fuel ['a', 'b'] 1 1 fuel 0 = Option.none := by
    intro fuel
    induction fuel with
    | zero => rfl
    | succ n ih => simp [chunk_text_fuel, ih]
  exact ⟨h 3, h⟩

/-- C1: every verdict record produced by `analyze_document` satisfies the
two record invariants — `overall_violation` equals `pattern_violation OR
llm_violation`, and `confidence_score` equals
`max(0.8 if pattern_violation else 0.0, llm_confidence)` — and therefore
has `confidence_score ≥ 0.8` whenever the pattern hit, regardless of the
LLM confidence. -/
theorem analyze_document_verdict_invariants (doc_id : String) (content : List Char)
    (rules : List (String × RuleSet)) (rule_types : Option (List String))
    (llm : List Char → Rule → LLMResult) (v : ComplianceVerdict)
    (hv : v ∈ analyze_document doc_id content rules rule_types llm) :
    v.overall_violation = (v.pattern_violation || v.llm_violation) ∧
    v.confidence_score = max (if v.pattern_violation then (8 : ℚ) / 10 else 0) v.llm_confidence ∧
    (v.pattern_violation = true → (8 : ℚ) / 10 ≤ v.confidence_score) := by
  rw [analyze_document, List.mem_flatMap] at hv
  obtain ⟨rt, -, hv⟩ := hv
  cases hlook : rules.lookup rt with
  | none => simp [hlook] at hv
  | some rs =>
    simp only [hlook, List.mem_map] at hv
    obtain ⟨rule, -, rfl⟩ := hv
    refine ⟨rfl, pymax_eq_max _ _, fun hp => ?_⟩
    have hp2 : (check_pattern_compliance content rule).1 = true := hp
    show (8 : ℚ) / 10 ≤
      pymax (if (check_pattern_compliance content rule).1 then (8 : ℚ) / 10 else 0)
        ((llm content rule).confidence.getD 0)
    rw [pymax_eq_max, hp2, if_pos rfl]
    exact le_max_left _ _

/-- Witness for C1 at a concrete run with a pattern hit. -/
theorem analyze_document_verdict_invariants_witness :
    witness_verdict.overall_violation =
      (witness_verdict.pattern_violation || witness_verdict.llm_violation) ∧
    witness_verdict.confidence_score =
      max (if witness_verdict.pattern_violation then (8 : ℚ) / 10 else 0)
        witness_verdict.llm_confidence ∧
    (witness_verdict.pattern_violation = true →
      (8 : ℚ) / 10 ≤ witness_verdict.confidence_score) :=
  analyze_document_verdict_invariants "d" content0 [("GDPR", { rules := some [rule0] })]
    Option.none (fun _ _ => no_api_llm_result) witness_verdict (List.Mem.head _)

/-- C9: with no LLM backend configured the adjudicator returns the fixed
"No LLM API configured" verdict instead of failing, and an
`analyze_document` run driven by that degraded collaborator yields, for
every rule whose patterns did not hit, a verdict with no LLM violation, no
overall violation, and confidence score 0. -/
theorem no_backend_degraded_mode :
    (∀ (content : List Char) (rule : Rule),
      llm_compliance_check Option.none Option.none content rule =
        PyValue.dict [("violation", PyValue.bool false), ("confidence", PyValue.num 0),
          ("evidence", PyValue.list []), ("explanation", PyValue.str "No LLM API configured")]) ∧
    ∀ (doc_id : String) (content : List Char) (rules : List (String × RuleSet))
      (rule_types : Option (List String)) (v : ComplianceVerdict),
      v ∈ analyze_document doc_id content rules rule_types (fun _ _ => no_api_llm_result) →
      v.pattern_violation = false →
      v.llm_violation = false ∧ v.overall_violation = false ∧ v.confidence_score = 0 := by
  refine ⟨fun content rule => rfl, fun doc_id content rules rule_types v hv hp => ?_⟩
  rw [analyze_document, List.mem_flatMap] at hv
  obtain ⟨rt, -, hv⟩ := hv
  cases hlook : rules.lookup rt with
  | none => simp [hlook] at hv
  | some rs =>
    simp only [hlook, List.mem_map] at hv
    obtain ⟨rule, -, rfl⟩ := hv
    have hp2 : (check_pattern_compliance content rule).1 = false := hp
    refine ⟨rfl, ?_, ?_⟩
    · show ((check_pattern_compliance content rule).1 || (no_api_llm_result.violation.getD false)) = false
      rw [hp2]
      rfl
    · show pymax (if (check_pattern_compliance content rule).1 then (8 : ℚ) / 10 else 0)
        (no_api_llm_result.confidence.getD 0) = 0
      rw [hp2]
      simp [pymax, no_api_llm_result]

/-- Witness for C9 at a concrete run without a pattern hit. -/
theorem no_backend_degraded_mode_witness :
    witness_verdict_no_hit.llm_violation = false ∧
    witness_verdict_no_hit.overall_violation = false ∧
    witness_verdict_no_hit.confidence_score = 0 :=
  no_backend_degraded_mode.2 "d" ['x'] [("GDPR", { rules := some [rule0] })] Option.none
    witness_verdict_no_hit (List.Mem.head _) rfl

/-- C4: the aggregator returns exactly the "No violations found" report with
empty summary on the empty verdict list; on a non-empty list of N verdicts
of which V violate, the summary has total_checks = N, total_violations = V
and compliance_score = 100 * (N - V) / N. -/
theorem generate_compliance_report_spec :
    generate_compliance_report [] =
      { status := "No violations found", summary := Option.none, detailed_results := [] } ∧
    ∀ results : List ComplianceVerdict, results ≠ [] →
      ∃ s, (generate_compliance_report results).summary = some s ∧
        s.total_checks = results.length ∧
        s.total_violations = (results.filter (fun v => v.overall_violation)).length ∧
        s.compliance_score =
          100 * ((results.length : ℚ) -
            ((results.filter (fun v => v.overall_violation)).length : ℚ)) /
            (results.length : ℚ) := by
  refine ⟨rfl, fun results h => ?_⟩
  have hne : results.isEmpty = false := by
    cases results with
    | nil => exact absurd rfl h
    | cons a l => rfl
  rw [generate_compliance_report, hne]
  exact ⟨_, rfl, rfl, rfl, by ring⟩

/-- Witness for C4 on a concrete two-verdict list with one violation. -/
theorem generate_compliance_report_spec_witness :
    ∃ s, (generate_compliance_report [witness_verdict, witness_verdict_no_hit]).summary = some s ∧
      s.total_checks = [witness_verdict, witness_verdict_no_hit].length ∧
      s.total_violations =
        ([witness_verdict, witness_verdict_no_hit].filter (fun v => v.overall_violation)).length ∧
      s.compliance_score =
        100 * (([witness_verdict, witness_verdict_no_hit].length : ℚ) -
          (([witness_verdict, witness_verdict_no_hit].filter
            (fun v => v.overall_violation)).length : ℚ)) /
          ([witness_verdict, witness_verdict_no_hit].length : ℚ) :=
  generate_compliance_report_spec.2 [witness_verdict, witness_verdict_no_hit]
    (List.cons_ne_nil _ _)

/-- C2 counterexample: a backend that returns the valid-JSON text "42" makes
`llm_compliance_check` return the bare number it parsed — not a well-formed
verdict — refuting "always returns a well-formed verdict" for arbitrary
backend behaviour. -/
theorem llm_check_can_return_non_verdict :
    (∃ q : ℚ, llm_compliance_check (some (fun _ => Except.ok "42")) Option.none
      ['x'] rule0 = PyValue.num q) ∧
    isWellFormedLLMVerdict (llm_compliance_check (some (fun _ => Except.ok "42")) Option.none
      ['x'] rule0) = false :=
  ⟨⟨_, rfl⟩, rfl⟩

/-- C2 amended: `llm_compliance_check` never propagates an exception, and
whenever the one backend call raises, it returns exactly the well-formed
verdict violation=false, confidence=0.0, evidence=[],
explanation="LLM analysis failed: <cause>"; only the parse-success branch
can return a value that is not a well-formed verdict (the parsed JSON is
passed through as-is). -/
theorem llm_check_backend_exception_to_verdict
    (openai_client anthropic_client : Option (String → Except String String))
    (content : List Char) (rule : Rule) (e : String)
    (hraise : llm_backend_call openai_client anthropic_client (build_prompt content rule) =
      some (Except.error e)) :
    llm_compliance_check openai_client anthropic_client content rule =
      PyValue.dict [("violation", PyValue.bool false), ("confidence", PyValue.num 0),
        ("evidence", PyValue.list []),
        ("explanation", PyValue.str ("LLM analysis failed: " ++ e))] ∧
    isWellFormedLLMVerdict
      (PyValue.dict [("violation", PyValue.bool false), ("confidence", PyValue.num 0),
        ("evidence", PyValue.list []),
        ("explanation", PyValue.str ("LLM analysis failed: " ++ e))]) = true := by
  constructor
  · simp only [llm_compliance_check]
    rw [hraise]
  · rfl

/-- Witness for the amended C2 with a concrete raising backend. -/
theorem llm_check_backend_exception_to_verdict_witness :
    llm_compliance_check (some (fun _ => Except.error "boom")) Option.none ['x'] rule0 =
      PyValue.dict [("violation", PyValue.bool false), ("confidence", PyValue.num 0),
        ("evidence", PyValue.list []),
        ("explanation", PyValue.str ("LLM analysis failed: " ++ "boom"))] ∧
    isWellFormedLLMVerdict
      (PyValue.dict [("violation", PyValue.bool false), ("confidence", PyValue.num 0),
        ("evidence", PyValue.list []),
        ("explanation", PyValue.str ("LLM analysis failed: " ++ "boom"))]) = true :=
  llm_check_backend_exception_to_verdict (some (fun _ => Except.error "boom")) Option.none
    ['x'] rule0 "boom" rfl

/-- C5 counterexample: the backend text "[1, 2]" cannot be parsed as the
expected structured verdict (it is a JSON array), yet `llm_compliance_check`
returns the parsed array itself, not the fail-open verdict. -/
theorem llm_check_valid_json_list_passthrough :
    (∃ items, llm_compliance_check (some (fun _ => Except.ok "[1, 2]")) Option.none
      ['x'] rule0 = PyValue.list items) ∧
    llm_compliance_check (some (fun _ => Except.ok "[1, 2]")) Option.none ['x'] rule0 ≠
      PyValue.dict [("violation", PyValue.bool true), ("confidence", PyValue.num (1 / 2)),
        ("evidence", PyValue.list []), ("explanation", PyValue.str "[1, 2]")] := by
  refine ⟨⟨_, rfl⟩, fun h => ?_⟩
  exact PyValue.noConfusion h

/-- C5 amended: the fail-open verdict arises exactly from a JSON decode
error: when the configured backend's returned text is not valid JSON,
`llm_compliance_check` returns violation=true, confidence=0.5, evidence=[],
explanation=<the raw text>; text that parses as JSON — of whatever shape —
is returned as parsed instead. -/
theorem llm_check_parse_branches
    (openai_client anthropic_client : Option (String → Except String String))
    (content : List Char) (rule : Rule) (text : String)
    (hcall : llm_backend_call openai_client anthropic_client (build_prompt content rule) =
      some (Except.ok text)) :
    (json_loads text = Option.none →
      llm_compliance_check openai_client anthropic_client content rule =
        PyValue.dict [("violation", PyValue.bool true), ("confidence", PyValue.num (1 / 2)),
          ("evidence", PyValue.list []), ("explanation", PyValue.str text)]) ∧
    (∀ v : PyValue, json_loads text = some v →
      llm_compliance_check openai_client anthropic_client content rule = v) := by
  constructor
  · intro hparse
    simp only [llm_compliance_check]
    rw [hcall]
    dsimp only
    rw [hparse]
  · intro v hparse
    simp only [llm_compliance_check]
    rw [hcall]
    dsimp only
    rw [hparse]

/-- Witness for the amended C5 with a concrete backend returning non-JSON
text. -/
theorem llm_check_parse_branches_witness :
    llm_compliance_check (some (fun _ => Except.ok "oops not json")) Option.none ['x'] rule0 =
      PyValue.dict [("violation", PyValue.bool true), ("confidence", PyValue.num (1 / 2)),
        ("evidence", PyValue.list []), ("explanation", PyValue.str "oops not json")] :=
  (llm_check_parse_branches (some (fun _ => Except.ok "oops not json")) Option.none
    ['x'] rule0 "oops not json" rfl).1 rfl

/-- C6 counterexample: a rule file whose single rule entry has `name` and
`description` but no `id` loads successfully and verbatim — no RuleLoadError
is raised anywhere (none exists in the code) and no per-entry validation
happens at load time. -/
theorem load_all_rules_accepts_missing_id :
    load_all_rules [("gdpr_rules.json",
      "\x7b\"rules\": [\x7b\"name\": \"N\", \"description\": \"D\"\x7d]\x7d")] =
    Except.ok [("GDPR", PyValue.dict [("rules", PyValue.list [PyValue.dict
      [("name", PyValue.str "N"), ("description", PyValue.str "D")]])])] := rfl

/-- C6 amended: `load_all_rules` performs no per-entry validation — every
`*_rules.json` file whose contents parse as JSON loads verbatim, whatever
fields its rule entries lack; only a JSON decode error aborts the load, and
it aborts the whole batch rather than only the offending file. -/
theorem load_all_rules_no_validation (files : List (String × String))
    (h : ∀ p ∈ files, str_endswith p.1 "_rules.json" = true → (json_loads p.2).isSome = true) :
    load_all_rules files = Except.ok
      ((files.filter (fun p => str_endswith p.1 "_rules.json")).map
        (fun p => (rule_type_of p.1, (json_loads p.2).getD PyValue.null))) := by
  induction files with
  | nil => rfl
  | cons f rest ih =>
    obtain ⟨filename, contents⟩ := f
    by_cases he : str_endswith filename "_rules.json" = true
    · have hs := h (filename, contents) (List.mem_cons_self _ _) he
      obtain ⟨v, hv⟩ := Option.isSome_iff_exists.mp hs
      have ih2 := ih (fun p hp hend => h p (List.mem_cons_of_mem _ hp) hend)
      simp only [load_all_rules, he, if_true, hv, ih2, Except.map,
        List.filter_cons_of_pos, List.map_cons, Option.getD_some]
    · have ih2 := ih (fun p hp hend => h p (List.mem_cons_of_mem _ hp) hend)
      have he2 : str_endswith filename "_rules.json" = false := by
        cases hval : str_endswith filename "_rules.json" with
        | false => rfl
        | true => exact absurd hval he
      simp only [load_all_rules, he2, Bool.false_eq_true, if_false, ih2,
        List.filter_cons_of_neg, List.map_cons]
      rw [List.filter_cons_of_neg]
      simp [he2]

/-- Witness for the amended C6 on a concrete batch: one parsing rule file,
one non-rule file. -/
theorem load_all_rules_no_validation_witness :
    load_all_rules [("gdpr_rules.json", "\x7b\x7d"), ("notes.txt", "junk")] = Except.ok
      (([("gdpr_rules.json", "\x7b\x7d"), ("notes.txt", "junk")].filter
        (fun p => str_endswith p.1 "_rules.json")).map
        (fun p => (rule_type_of p.1, (json_loads p.2).getD PyValue.null))) :=
  load_all_rules_no_validation [("gdpr_rules.json", "\x7b\x7d"), ("notes.txt", "junk")]
    (by decide)

/-- A successful find returns the first position at or after the scan start
where the needle is a prefix of the remaining haystack. -/
theorem firstOccurAux_some_iff (needle : List Char) :
    ∀ (hay : List Char) (i j : Nat),
      firstOccurAux needle hay i = some j ↔
        ∃ k, j = i + k ∧ needle <+: hay.drop k ∧ ∀ m < k, ¬ needle <+: hay.drop m := by
  intro hay
  induction hay with
  | nil =>
    intro i j
    rw [firstOccurAux]
    by_cases hn : needle = []
    · rw [if_pos hn]
      subst hn
      constructor
      · intro h
        injection h with h
        exact ⟨0, by omega, by simp, by omega⟩
      · rintro ⟨k, rfl, -, hmin⟩
        have hk : k = 0 := by
          by_contra hk0
          exact hmin 0 (Nat.pos_of_ne_zero hk0) (by simp)
        subst hk
        rfl
    · rw [if_neg hn]
      constructor
      · intro h
        exact absurd h (by simp)
      · rintro ⟨k, rfl, hpre, -⟩
        rw [List.drop_nil] at hpre
        exact absurd (List.prefix_nil.mp hpre) hn
  | cons c rest ih =>
    intro i j
    rw [firstOccurAux]
    by_cases hp : needle.isPrefixOf (c :: rest)
    · rw [if_pos hp]
      have hp2 : needle <+: c :: rest := List.isPrefixOf_iff_prefix.mp hp
      constructor
      · intro h
        injection h with h
        exact ⟨0, by omega, by simpa using hp2, by omega⟩
      · rintro ⟨k, rfl, -, hmin⟩
        have hk : k = 0 := by
          by_contra hk0
          exact hmin 0 (Nat.pos_of_ne_zero hk0) (by simpa using hp2)
        subst hk
        rfl
    · rw [if_neg hp]
      have hp2 : ¬ needle <+: c :: rest := fun hc => hp ( List.isPrefixOf_iff_prefix.mpr hc)
      rw [ih (i + 1) j]
      constructor
      · rintro ⟨k, rfl, hpre, hmin⟩
        refine ⟨k + 1, by omega, by simpa using hpre, ?_⟩
        intro m hm
        cases m with
        | zero => simpa using hp2
        | succ m2 =>
          rw [List.drop_succ_cons]
          exact hmin m2 (by omega)
      · rintro ⟨k, hkj, hpre, hmin⟩
        cases k with
        | zero => exact absurd (by simpa using hpre) hp2
        | succ k2 =>
          refine ⟨k2, by omega, by simpa using hpre, ?_⟩
          intro m hm
          have h3 := hmin (m + 1) (by omega)
          rw [List.drop_succ_cons] at h3
          exact h3

/-- A needle occurs somewhere in the haystack exactly when it is a prefix of
some tail of it. -/
theorem isInfix_iff_exists_drop (needle hay : List Char) :
    needle <:+: hay ↔ ∃ k, needle <+: hay.drop k := by
  constructor
  · rintro ⟨s, t, rfl⟩
    refine ⟨s.length, ?_⟩
    rw [List.append_assoc, List.drop_left]
    exact ⟨t, rfl⟩
  · rintro ⟨k, t, ht⟩
    refine ⟨hay.take k, t, ?_⟩
    rw [List.append_assoc, ht, List.take_append_drop]

/-- The find `firstOccur` succeeds exactly on an occurrence. -/
theorem firstOccur_isSome_iff (needle hay : List Char) :
    (∃ j, firstOccur needle hay = some j) ↔ needle <:+: hay := by
  rw [isInfix_iff_exists_drop]
  constructor
  · rintro ⟨j, hj⟩
    obtain ⟨k, -, hpre, -⟩ := (firstOccurAux_some_iff needle hay 0 j).mp hj
    exact ⟨k, hpre⟩
  · intro hex
    have hdec : DecidablePred (fun k => needle <+: hay.drop k) := fun k => inferInstance
    refine ⟨Nat.find hex, (firstOccurAux_some_iff needle hay 0 _).mpr
      ⟨Nat.find hex, by omega, Nat.find_spec hex, fun m hm => Nat.find_min hex hm⟩⟩

/-- The extractor `pattern_evidence_of` records an entry exactly when the lowered pattern
occurs in the lowered content. -/
theorem pattern_evidence_of_isSome_iff (content pattern : List Char) :
    (∃ e, pattern_evidence_of content pattern = some e) ↔
      (pattern.map Char.toLower) <:+: (content.map Char.toLower) := by
  rw [← firstOccur_isSome_iff]
  constructor
  · rintro ⟨e, he⟩
    rw [pattern_evidence_of] at he
    cases hfo : firstOccur (pattern.map Char.toLower) (content.map Char.toLower) with
    | none => rw [hfo] at he; exact absurd he (by simp)
    | some j => exact ⟨j, rfl⟩
  · rintro ⟨j, hj⟩
    rw [pattern_evidence_of, hj]
    exact ⟨_, rfl⟩

/-- C3: the pattern matcher hits iff at least one phrase of `rule.patterns`
occurs as a case-insensitive substring of the content; with absent or empty
patterns it returns `(false, [])`; the evidence list records, per pattern in
order, exactly one entry built from the pattern's first (case-insensitive)
occurrence, with about 100 characters of context on each side clamped to
the text bounds. -/
theorem check_pattern_compliance_spec (content : List Char) (rule : Rule) :
    ((check_pattern_compliance content rule).1 = true ↔
      ∃ p ∈ rule.patterns.getD [], (p.map Char.toLower) <:+: (content.map Char.toLower)) ∧
    (rule.patterns.getD [] = [] → check_pattern_compliance content rule = (false, [])) ∧
    ((check_pattern_compliance content rule).2 =
      (rule.patterns.getD []).filterMap (pattern_evidence_of content)) ∧
    ∀ p ∈ rule.patterns.getD [],
      (p.map Char.toLower) <:+: (content.map Char.toLower) →
      ∃ k, (p.map Char.toLower) <+: ((content.map Char.toLower).drop k) ∧
        (∀ m < k, ¬ (p.map Char.toLower) <+: ((content.map Char.toLower).drop m)) ∧
        pattern_evidence_of content p = some ("Found \x27" ++ String.mk p ++
          "\x27 in context: ..." ++ String.mk ((content.drop (k - 100)).take
            (min content.length (k + p.length + 100) - (k - 100))) ++ "...") := by
  refine ⟨?_, ?_, rfl, ?_⟩
  · rw [check_pattern_compliance]
    simp only [Bool.not_eq_true', Bool.not_eq_false]
    constructor
    · intro h
      have h2 : (rule.patterns.getD []).filterMap (pattern_evidence_of content) ≠ [] := by
        simpa [List.isEmpty_iff] using h
      by_contra hno
      push_neg at hno
      apply h2
      rw [List.filterMap_eq_nil_iff]
      intro p hp
      cases hfe : pattern_evidence_of content p with
      | none => rfl
      | some e =>
        exact absurd ((pattern_evidence_of_isSome_iff content p).mp ⟨e, hfe⟩) (hno p hp)
    · rintro ⟨p, hp, hinf⟩
      obtain ⟨e, he⟩ := (pattern_evidence_of_isSome_iff content p).mpr hinf
      have hmem : e ∈ (rule.patterns.getD []).filterMap (pattern_evidence_of content) :=
        List.mem_filterMap.mpr ⟨p, hp, he⟩
      simp [List.isEmpty_iff, List.ne_nil_of_mem hmem]
  · intro h
    simp [check_pattern_compliance, h]
  · intro p hp hinf
    obtain ⟨j, hj⟩ := (firstOccur_isSome_iff _ _).mpr hinf
    obtain ⟨k, hjk, hpre, hmin⟩ := (firstOccurAux_some_iff _ _ 0 j).mp hj
    have hk : j = k := by omega
    subst hk
    refine ⟨j, hpre, hmin, ?_⟩
    rw [pattern_evidence_of, hj]

/-- Witness for C3: a hit on concrete content containing "ssn", and the
empty-patterns case on the same content. -/
theorem check_pattern_compliance_spec_witness :
    (check_pattern_compliance content0 rule0).1 = true ∧
    check_pattern_compliance content0
      { id := "R1", name := "Rule1", description := "desc", severity := Option.none,
        patterns := some [], llm_prompt := Option.none } = (false, []) :=
  ⟨(check_pattern_compliance_spec content0 rule0).1.mpr
    ⟨['s', 's', 'n'], by decide, by decide⟩,
   (check_pattern_compliance_spec content0 _).2.1 rfl⟩

/-- The instrumented segmenter computes the same windows as `chunk_text_fuel`,
paired with their start offsets. -/
theorem chunk_text_fuel_eq_pairs (text : List Char) (chunk_size overlap : Nat) :
    ∀ fuel start, chunk_text_fuel text chunk_size overlap fuel start =
      (chunk_text_pairs_fuel text chunk_size overlap fuel start).map (List.map Prod.snd) := by
  intro fuel
  induction fuel with
  | zero => intro start; rfl
  | succ n ih =>
    intro start
    simp only [chunk_text_fuel, chunk_text_pairs_fuel]
    by_cases h1 : start < text.length
    · rw [if_pos h1, if_pos h1]
      by_cases h2 : text.length ≤ start + chunk_size
      · rw [if_pos h2, if_pos h2]
        rfl
      · rw [if_neg h2, if_neg h2, ih]
        cases chunk_text_pairs_fuel text chunk_size overlap n (start + chunk_size - overlap) with
        | none => rfl
        | some ps => rfl
    · rw [if_neg h1, if_neg h1]
      rfl

/-- Structure of the windows produced from any start position inside the
text, for valid parameters: enough fuel yields a non-empty window list whose
首 window starts at `start`, whose windows all read `chunk_size` characters
from their start offset, whose consecutive windows satisfy `chunkStep`, and
whose last window ends exactly at the end of the text. -/
theorem chunk_text_pairs_spec (text : List Char) (chunk_size overlap : Nat)
    (hov : overlap < chunk_size) :
    ∀ fuel start, text.length ≤ start + fuel → start < text.length →
      ∃ ps : List (Nat × List Char),
        chunk_text_pairs_fuel text chunk_size overlap (fuel + 1) start = some ps ∧
        ps.head? = some (start, (text.drop start).take chunk_size) ∧
        (∀ p ∈ ps, p.2 = (text.drop p.1).take chunk_size) ∧
        List.Chain' (chunkStep chunk_size overlap) ps ∧
        ∃ lastp, ps.getLast? = some lastp ∧ lastp.1 + lastp.2.length = text.length := by
  intro fuel
  induction fuel with
  | zero => intro start h1 h2; omega
  | succ n ih =>
    intro start h1 h2
    by_cases h3 : text.length ≤ start + chunk_size
    · refine ⟨[(start, (text.drop start).take chunk_size)], ?_, rfl, ?_, ?_, ?_⟩
      · rw [chunk_text_pairs_fuel]
        rw [if_pos h2, if_pos h3]
      · intro p hp
        rw [List.mem_singleton] at hp
        subst hp
        rfl
      · exact List.chain'_singleton _
      · refine ⟨_, rfl, ?_⟩
        show start + ((text.drop start).take chunk_size).length = text.length
        simp only [List.length_take, List.length_drop]
        have hmin : min chunk_size (text.length - start) = text.length - start :=
          Nat.min_eq_right (by omega)
        rw [hmin]
        omega
    · have hstart2 : start + chunk_size - overlap < text.length := by omega
      have hfuel : text.length ≤ (start + chunk_size - overlap) + n := by omega
      obtain ⟨ps, hps, hhead, hall, hchain, lastp, hlast, hlen2⟩ :=
        ih (start + chunk_size - overlap) hfuel hstart2
      refine ⟨(start, (text.drop start).take chunk_size) :: ps, ?_, rfl, ?_, ?_, ?_⟩
      · rw [chunk_text_pairs_fuel]
        rw [if_pos h2, if_neg h3, hps]
        rfl
      · intro p hp
        cases hp with
        | head => rfl
        | tail _ hp2 => exact hall p hp2
      · rw [List.chain'_cons']
        refine ⟨?_, hchain⟩
        intro b hb
        rw [hhead, Option.mem_def, Option.some_inj] at hb
        subst hb
        refine ⟨by omega, ?_, ?_⟩
        · simp only [List.length_take, List.length_drop]
          exact Nat.min_eq_left (by omega)
        · rw [List.take_take, Nat.min_eq_left (le_of_lt hov), List.drop_take, List.drop_drop]
          have e1 : chunk_size - (chunk_size - overlap) = overlap := by omega
          have e3 : start + chunk_size - overlap = start + (chunk_size - overlap) := by omega
          rw [e1, e3]
      · refine ⟨lastp, ?_, hlen2⟩
        cases ps with
        | nil => exact absurd hhead (by simp)
        | cons p0 ps2 => rw [List.getLast?_cons_cons]; exact hlast

/-- C8: for non-empty text and valid parameters (`overlap < chunk_size`),
`chunk_text` terminates and yields windows whose start offsets advance by
exactly `chunk_size - overlap` (hence strictly increase), whose consecutive
windows share exactly `overlap` characters (every non-final window being
full-sized), and whose last window ends exactly at offset `len(text)`. -/
theorem chunk_text_windowing (text : List Char) (chunk_size overlap : Nat)
    (hov : overlap < chunk_size) (hlen : 0 < text.length) :
    ∃ ps : List (Nat × List Char),
      chunk_text text chunk_size overlap = some (ps.map Prod.snd) ∧
      ps.head? = some (0, text.take chunk_size) ∧
      (∀ p ∈ ps, p.2 = (text.drop p.1).take chunk_size) ∧
      List.Chain' (chunkStep chunk_size overlap) ps ∧
      List.Chain' (fun a b => a.1 < b.1) ps ∧
      ∃ lastp, ps.getLast? = some lastp ∧ lastp.1 + lastp.2.length = text.length := by
  obtain ⟨ps, hps, hhead, hall, hchain, lastp, hlast, hlen2⟩ :=
    chunk_text_pairs_spec text chunk_size overlap hov text.length 0 (by omega) hlen
  refine ⟨ps, ?_, by simpa using hhead, hall, hchain, ?_, lastp, hlast, hlen2⟩
  · rw [chunk_text, chunk_text_fuel_eq_pairs, hps]
    rfl
  · exact hchain.imp (fun a b hab => by rw [hab.1]; omega)

/-- Witness for C8 on the three-character text "abc" with chunk_size 2,
overlap 1. -/
theorem chunk_text_windowing_witness :
    ∃ ps : List (Nat × List Char),
      chunk_text ['a', 'b', 'c'] 2 1 = some (ps.map Prod.snd) ∧
      ps.head? = some (0, (['a', 'b', 'c'] : List Char).take 2) ∧
      (∀ p ∈ ps, p.2 = ((['a', 'b', 'c'] : List Char).drop p.1).take 2) ∧
      List.Chain' (chunkStep 2 1) ps ∧
      List.Chain' (fun a b => a.1 < b.1) ps ∧
      ∃ lastp, ps.getLast? = some lastp ∧
        lastp.1 + lastp.2.length = (['a', 'b', 'c'] : List Char).length :=
  chunk_text_windowing ['a', 'b', 'c'] 2 1 (by decide) (by decide)
